import Mathlib

/- Shallow embedding of the numerical-matrix-eigenvalues repository
   (src/Algebra/power_iteration_method.h): the dense Matrix container with
   its shared-storage view semantics, and the three power-iteration
   eigenvalue methods together with their dispatcher.

   Scalars: the C++ code instantiates Matrix<T> at T = double and
   T = std::complex<double>.  The embedding uses exact rationals (and a
   rational complex pair Cx) so that every definition is executable; the
   control flow, error checks and data flow follow the source line by line. -/

/-- Error taxonomy of the source: std::invalid_argument, std::runtime_error
and std::out_of_range, each carrying its message string. -/
inductive MatErr where
  | invalidArgument : String → MatErr
  | runtimeError : String → MatErr
  | outOfRange : String → MatErr
  deriving DecidableEq

/-- Classifies an Except result: 0 invalid_argument, 1 runtime_error,
2 out_of_range, 3 normal return. -/
def errKind {β : Type} : Except MatErr β → Nat
  | .error (.invalidArgument _) => 0
  | .error (.runtimeError _) => 1
  | .error (.outOfRange _) => 2
  | .ok _ => 3

/-- PairToString from the source: "(first; second)" (natural-number extents). -/
def pairToString (a b : Nat) : String :=
  "(" ++ toString a ++ "; " ++ toString b ++ ")"

/-- PairToString for the Int-indexed storage model. -/
def pairToStringI (a b : Int) : String :=
  "(" ++ toString a ++ "; " ++ toString b ++ ")"

/-- Rational stand-in for std::complex<T>: real and imaginary part. -/
structure Cx where
  re : ℚ
  im : ℚ
  deriving DecidableEq

instance : Zero Cx := ⟨⟨0, 0⟩⟩

instance : One Cx := ⟨⟨1, 0⟩⟩

instance : Add Cx := ⟨fun a b => ⟨a.re + b.re, a.im + b.im⟩⟩

instance : Neg Cx := ⟨fun a => ⟨-a.re, -a.im⟩⟩

instance : Sub Cx := ⟨fun a b => ⟨a.re - b.re, a.im - b.im⟩⟩

instance : Mul Cx := ⟨fun a b => ⟨a.re * b.re - a.im * b.im, a.re * b.im + a.im * b.re⟩⟩

instance : Div Cx :=
  ⟨fun a b =>
    ⟨(a.re * b.re + a.im * b.im) / (b.re * b.re + b.im * b.im),
     (a.im * b.re - a.re * b.im) / (b.re * b.re + b.im * b.im)⟩⟩

/-- The implicit real-to-complex conversion T → std::complex<T>. -/
def q2c (q : ℚ) : Cx := ⟨q, 0⟩

/-- Complex conjugation (used only to discuss that ScalarProduct does not
conjugate; the source never conjugates). -/
def cxConj (z : Cx) : Cx := ⟨z.re, -z.im⟩

/-- std::norm of a complex number: the squared modulus, exactly computable. -/
def normSqC (z : Cx) : ℚ := z.re * z.re + z.im * z.im

/-- std::abs on the rational scalar. -/
def qabs (q : ℚ) : ℚ := if q < 0 then -q else q

/-- Value-level model of an owning Matrix<T>: logical extents plus the entry
map.  The eigen-solvers operate exclusively on freshly allocated owning
matrices, for which logical index (i, j) is backing index (i, j); the
aliasing sub-matrix views are modelled separately by MatR and Heap below. -/
structure MatF (α : Type) where
  rows : Nat
  cols : Nat
  entry : Nat → Nat → α

/-- Left-to-right accumulation res += f 0; ...; res += f (n-1) from a
zero-initialised accumulator, as in the accumulation loops of the source. -/
def sumTo {α : Type} [Zero α] [Add α] : Nat → (Nat → α) → α
  | 0, _ => 0
  | n + 1, f => sumTo n f + f n

/-- Matrix(n, m, value): every entry holds the fill value (T() = 0 for the
two-argument constructor). -/
def constMat {α : Type} (n m : Nat) (v : α) : MatF α := ⟨n, m, fun _ _ => v⟩

/-- Matrix<T>::Zeros(n, m). -/
def mzeros (n m : Nat) : MatF ℚ := constMat n m 0

/-- A single entry assignment through operator()(i, j). -/
def updateEntry {α : Type} (m : MatF α) (i j : Nat) (v : α) : MatF α :=
  ⟨m.rows, m.cols, fun i' j' => if i' = i ∧ j' = j then v else m.entry i' j'⟩

/-- operator*(Matrix, Matrix): the i,k,j triple loop accumulating
result.At(i, j) += lhs.At(i, k) * rhs.At(k, j) into a zero-filled result. -/
def mmul {α : Type} [Zero α] [Add α] [Mul α] (a b : MatF α) : MatF α :=
  ⟨a.rows, b.cols, fun i j => sumTo a.cols (fun k => a.entry i k * b.entry k j)⟩

/-- Scalar multiplication: operator*=(U b) does At(i, j) *= b elementwise,
and both operator*(Matrix, scalar) and operator*(scalar, Matrix) reduce to it. -/
def msmul {α : Type} [Mul α] (a : MatF α) (c : α) : MatF α :=
  ⟨a.rows, a.cols, fun i j => a.entry i j * c⟩

/-- operator/(Matrix, scalar): elementwise division. -/
def mdiv {α : Type} [Div α] (a : MatF α) (c : α) : MatF α :=
  ⟨a.rows, a.cols, fun i j => a.entry i j / c⟩

/-- operator+ after the size assertion: elementwise sum, extents from the
left operand (res = a; res += b). -/
def madd {α : Type} [Add α] (a b : MatF α) : MatF α :=
  ⟨a.rows, a.cols, fun i j => a.entry i j + b.entry i j⟩

/-- operator- after the size assertion. -/
def msub {α : Type} [Sub α] (a b : MatF α) : MatF α :=
  ⟨a.rows, a.cols, fun i j => a.entry i j - b.entry i j⟩

/-- Matrix<T>::ToComplex(): promote every entry, zero imaginary part. -/
def toComplexM (a : MatF ℚ) : MatF Cx :=
  ⟨a.rows, a.cols, fun i j => q2c (a.entry i j)⟩

/-- IsVector(): IsColVector() || IsRowVector(). -/
def isVecM {α : Type} (m : MatF α) : Prop := m.cols = 1 ∨ m.rows = 1

instance {α : Type} (m : MatF α) : Decidable (isVecM m) := by
  unfold isVecM; infer_instance

/-- At(i) single-index access on a vector: the row-vector branch is tested
first, then the column branch (the runtime_error branch for non-vectors is
carried by the Except wrappers; this total version is used only under the
vector guard). -/
def atSingleT {α : Type} (m : MatF α) (i : Nat) : α :=
  if m.rows = 1 then m.entry 0 i else m.entry i 0

/-- The accumulation loop of ScalarProduct: sum over
i < max(cols, rows) of At(i) * b.At(i). -/
def dotP {α : Type} [Zero α] [Add α] [Mul α] (a b : MatF α) : α :=
  sumTo (max a.cols a.rows) (fun i => atSingleT a i * atSingleT b i)

/-- The message AssertEqualSizes throws with. -/
def sizesMsg {α : Type} (a b : MatF α) : String :=
  "Wrong matrix sizes: " ++ pairToString a.rows a.cols ++ " "
    ++ pairToString b.rows b.cols

/-- Matrix<T>::ScalarProduct with its two checks in source order: first the
runtime_error when either operand is not a vector, then AssertEqualSizes
(invalid_argument), then the accumulation. -/
def scalarProductE {α : Type} [Zero α] [Add α] [Mul α] (a b : MatF α) :
    Except MatErr α :=
  if ¬ isVecM a ∨ ¬ isVecM b then
    .error (.runtimeError ("Matrices of sizes " ++ pairToString a.rows a.cols
      ++ " and " ++ pairToString b.rows b.cols ++ " are not both vectors"))
  else if ¬ (a.rows = b.rows ∧ a.cols = b.cols) then
    .error (.invalidArgument (sizesMsg a b))
  else .ok (dotP a b)

/-- Message of the out_of_range error raised by At(i, j). -/
def oobMsgF {α : Type} (i j : Nat) (m : MatF α) : String :=
  "Indexes (" ++ toString i ++ "; " ++ toString j ++ ") out of matrix size "
    ++ pairToString m.rows m.cols

/-- Single-index write y(i) = v with the checks of At: row-vector branch
first, column branch second, runtime_error on a non-vector, out_of_range
outside the logical extents. -/
def setSingleE {α : Type} (m : MatF α) (i : Nat) (v : α) :
    Except MatErr (MatF α) :=
  if m.rows = 1 then
    if i < m.cols then .ok (updateEntry m 0 i v)
    else .error (.outOfRange (oobMsgF 0 i m))
  else if m.cols = 1 then
    if i < m.rows then .ok (updateEntry m i 0 v)
    else .error (.outOfRange (oobMsgF i 0 m))
  else
    .error (.runtimeError ("trying to get value by single index in matrix of size "
      ++ pairToString m.rows m.cols))

/-- operator!= after the size assertion: some pair of corresponding entries
is NaN-like or differs by more than eps.  Over ℚ the two NaN self-inequality
disjuncts are always false; they are kept exactly as the source tests them. -/
def matNeq (eps : ℚ) (a b : MatF ℚ) : Prop :=
  ∃ i < a.rows, ∃ j < a.cols,
    a.entry i j ≠ a.entry i j ∨ b.entry i j ≠ b.entry i j ∨
      eps < qabs (a.entry i j - b.entry i j)

instance (eps : ℚ) (a b : MatF ℚ) : Decidable (matNeq eps a b) := by
  unfold matNeq; infer_instance

/-- operator== via operator!=: the size assertion, then the negated
elementwise comparison under the configured epsilon. -/
def meqE (eps : ℚ) (a b : MatF ℚ) : Except MatErr Bool :=
  if ¬ (a.rows = b.rows ∧ a.cols = b.cols) then
    .error (.invalidArgument (sizesMsg a b))
  else .ok (decide (¬ matNeq eps a b))

/-- operator+ with its size assertion. -/
def maddE (a b : MatF ℚ) : Except MatErr (MatF ℚ) :=
  if ¬ (a.rows = b.rows ∧ a.cols = b.cols) then
    .error (.invalidArgument (sizesMsg a b))
  else .ok (madd a b)

/-- operator- with its size assertion. -/
def msubE (a b : MatF ℚ) : Except MatErr (MatF ℚ) :=
  if ¬ (a.rows = b.rows ∧ a.cols = b.cols) then
    .error (.invalidArgument (sizesMsg a b))
  else .ok (msub a b)

/-- Modelled from the spec: EuclideanNorm, MinimalSquareProblem and
SolveQuadraticEquation are external collaborators declared in headers
(euclidean_norm.h, minimal_square_problem.h, eigenvalues.h) that are not part
of the repository sources; per the spec they are pure functions with the
signatures below (2-norm of a vector-shaped matrix for the real and complex
instantiations, a real least-squares solver, and the two complex roots of
x^2 + c1*x + c0 = 0).  They are abstracted as parameters, together with the
real square root and the complex modulus from the standard library. -/
structure Collab where
  normF : MatF ℚ → ℚ
  normC : MatF Cx → Cx
  sqrtF : ℚ → ℚ
  absC : Cx → ℚ
  minSq : MatF ℚ → MatF ℚ → MatF ℚ
  solveQuad : ℚ → ℚ → ℚ → Cx × Cx

/-- The 1e18 initial previous-lambda sentinel. -/
def bigQ : ℚ := 1000000000000000000

/-- The non-square invalid_argument message. -/
def notSquareMsg {α : Type} (a : MatF α) : String :=
  "Matrix of size " ++ pairToString a.rows a.cols ++ " is not square."

/-- State of the real power-iteration while loops: iterate u, working vector
y, current lambda, previous lambda, iteration counter. -/
structure LoopSt where
  u : MatF ℚ
  y : MatF ℚ
  lam : ℚ
  prev : ℚ
  iter : Int

/-- PowerIterationMethod1Iteration: y = A*u; u = y/EuclideanNorm(y);
lambda = u.ScalarProduct(A*u).  Returns (lambda, u, y), reflecting the
in-place mutation of the u and y reference parameters. -/
def powerIterationMethod1Iteration (E : Collab) (a u _y : MatF ℚ) :
    ℚ × MatF ℚ × MatF ℚ :=
  let y1 := mmul a u
  let u1 := mdiv y1 (E.normF y1)
  (dotP u1 (mmul a u1), u1, y1)

/-- The Method 1 while loop: while |prev - lambda| > eps, run one iteration,
increment the counter, and break as soon as it exceeds max_iters.  The Nat
fuel only bounds the recursion; every caller supplies maxIters.toNat + 1,
which the max_iters break makes sufficient. -/
def method1Go (E : Collab) (a : MatF ℚ) (eps : ℚ) (maxIters : Int) :
    Nat → LoopSt → LoopSt
  | 0, s => s
  | fuel + 1, s =>
    if eps < qabs (s.prev - s.lam) then
      let st := powerIterationMethod1Iteration E a s.u s.y
      let s1 : LoopSt := ⟨st.2.1, st.2.2, st.1, s.lam, s.iter + 1⟩
      if maxIters < s1.iter then s1
      else method1Go E a eps maxIters fuel s1
    else s

/-- Result of Method 1: lambda, the final u and y, the raw loop counter and
the value written to the iters out-parameter. -/
structure M1Res where
  lam : ℚ
  u : MatF ℚ
  y : MatF ℚ
  iter : Int
  itersOut : Int

/-- Method 1 body after the y(0) = 1 seed write: u = y/EuclideanNorm(y),
initial Rayleigh quotient, the while loop, then the out-parameter logic
(*iters = iter + 1, overwritten with -1 if iter >= max_iters or
EuclideanNorm(u) < eps). -/
def method1Core (E : Collab) (eps : ℚ) (a y1 : MatF ℚ) (maxIters : Int) :
    M1Res :=
  let u0 := mdiv y1 (E.normF y1)
  let lam0 := dotP u0 (mmul a u0)
  let s := method1Go E a eps maxIters (maxIters.toNat + 1) ⟨u0, y1, lam0, bigQ, 0⟩
  let io := if maxIters ≤ s.iter ∨ E.normF s.u < eps then -1 else s.iter + 1
  ⟨s.lam, s.u, s.y, s.iter, io⟩

/-- PowerMethodEigenvalues1: the square check, then the y(0) = 1 write on
the by-value copy of the seed, then the core. -/
def powerMethodEigenvalues1 (E : Collab) (eps : ℚ) (a y0 : MatF ℚ)
    (maxIters : Int) : Except MatErr M1Res :=
  if ¬ a.rows = a.cols then .error (.invalidArgument (notSquareMsg a))
  else
    match setSingleE y0 0 1 with
    | .error e => .error e
    | .ok y1 => .ok (method1Core E eps a y1 maxIters)

/-- PowerIterationMethod2Iteration: y = A2*u; u = y/EuclideanNorm(y);
lambda = u.ScalarProduct(A2*u).  The a parameter is unused, as in the
source.  Returns (lambda, u, y). -/
def powerIterationMethod2Iteration (E : Collab) (_a a2 u _y : MatF ℚ) :
    ℚ × MatF ℚ × MatF ℚ :=
  let y1 := mmul a2 u
  let u1 := mdiv y1 (E.normF y1)
  (dotP u1 (mmul a2 u1), u1, y1)

/-- The Method 2 while loop: while |lambda - prev| > eps, one iteration on
A2 followed by lambda = sqrt(|Rayleigh quotient|), with the max_iters
break. -/
def method2Go (E : Collab) (a a2 : MatF ℚ) (eps : ℚ) (maxIters : Int) :
    Nat → LoopSt → LoopSt
  | 0, s => s
  | fuel + 1, s =>
    if eps < qabs (s.lam - s.prev) then
      let st := powerIterationMethod2Iteration E a a2 s.u s.y
      let s1 : LoopSt := ⟨st.2.1, st.2.2, E.sqrtF (qabs st.1), s.lam, s.iter + 1⟩
      if maxIters < s1.iter then s1
      else method2Go E a a2 eps maxIters fuel s1
    else s

/-- Result of Method 2: the eigenpair list, the out-parameter value, the
final state of the caller's y vector (passed by reference and mutated), and
the post-loop lambda, u and raw counter. -/
structure M2Res where
  ans : List (Cx × MatF Cx)
  itersOut : Int
  yOut : MatF ℚ
  lam : ℚ
  u : MatF ℚ
  iter : Int

/-- Method 2 body (no seed write: the caller's y is used as passed):
A2 = A*A, u = y/EuclideanNorm(y), lambda = sqrt(|u.(A2*u)|), the loop, the
two closed-form eigenvector candidates, the norm filter, and the
out-parameter logic (-1 if iter >= max_iters or the list is empty). -/
def method2Core (E : Collab) (a y0 : MatF ℚ) (maxIters : Int) (eps : ℚ) :
    M2Res :=
  let a2 := mmul a a
  let u0 := mdiv y0 (E.normF y0)
  let lam0 := E.sqrtF (qabs (dotP u0 (mmul a2 u0)))
  let s := method2Go E a a2 eps maxIters (maxIters.toNat + 1) ⟨u0, y0, lam0, bigQ, 0⟩
  let v1 := mdiv (madd (mmul (msmul a s.lam) s.u) (mmul a2 s.u)) (2 * s.lam * s.lam)
  let v2 := mdiv (madd (mmul (msmul a (-s.lam)) s.u) (mmul a2 s.u)) (2 * s.lam * s.lam)
  let ans := (if eps < E.normF v1 then [(q2c s.lam, toComplexM v1)] else [])
      ++ (if eps < E.normF v2 then [(q2c (-s.lam), toComplexM v2)] else [])
  let io := if maxIters ≤ s.iter ∨ ans.isEmpty then -1 else s.iter + 1
  ⟨ans, io, s.y, s.lam, s.u, s.iter⟩

/-- PowerMethodEigenvalues2: the square check, then the core. -/
def powerMethodEigenvalues2 (E : Collab) (a y0 : MatF ℚ) (maxIters : Int)
    (eps : ℚ) : Except MatErr M2Res :=
  if ¬ a.rows = a.cols then .error (.invalidArgument (notSquareMsg a))
  else .ok (method2Core E a y0 maxIters eps)

/-- PowerMethodEigenvaluesComplexIteration: advance u by one complex power
step (y = A*u, u = y/EuclideanNorm(y)), build the n-by-2 real system
l * c = r with l(i, 0) = Re(u(i)), l(i, 1) = Re((A*u)(i)) and
r(i) = Re((-1 * A2 * u)(i)), solve it by least squares, and hand
(1, c(1), c(0)) to the quadratic solver.  Returns ((r1, r2), y, u). -/
def powerMethodEigenvaluesComplexIteration (E : Collab) (ca ca2 _y u : MatF Cx) :
    (Cx × Cx) × MatF Cx × MatF Cx :=
  let y1 := mmul ca u
  let u1 := mdiv y1 (E.normC y1)
  let au := mmul ca u1
  let l : MatF ℚ := ⟨u1.rows, 2, fun i j => if j = 0 then (u1.entry i 0).re else (au.entry i 0).re⟩
  let rc := mmul (msmul ca2 (q2c (-1))) u1
  let rv : MatF ℚ := ⟨u1.rows, 1, fun i _ => (rc.entry i 0).re⟩
  let c := E.minSq l rv
  (E.solveQuad 1 (atSingleT c 1) (atSingleT c 0), y1, u1)

/-- State of the Method 3 while loop: the complex working vectors, the two
tracked roots, their previous values, and the counter. -/
structure CLoopSt where
  y : MatF Cx
  u : MatF Cx
  r1 : Cx
  r2 : Cx
  pr1 : Cx
  pr2 : Cx
  iter : Int

/-- The Method 3 while loop: while |prev_r1 - r1| > |eps| or
|prev_r2 - r2| > |eps|, one complex iteration, with the max_iters break. -/
def method3Go (E : Collab) (epsQ : ℚ) (ca ca2 : MatF Cx) (maxIters : Int) :
    Nat → CLoopSt → CLoopSt
  | 0, s => s
  | fuel + 1, s =>
    if qabs epsQ < E.absC (s.pr1 - s.r1) ∨ qabs epsQ < E.absC (s.pr2 - s.r2) then
      let st := powerMethodEigenvaluesComplexIteration E ca ca2 s.y s.u
      let s1 : CLoopSt := ⟨st.2.1, st.2.2, st.1.1, st.1.2, s.r1, s.r2, s.iter + 1⟩
      if maxIters < s1.iter then s1
      else method3Go E epsQ ca ca2 maxIters fuel s1
    else s

/-- Result of Method 3. -/
structure M3Res where
  ans : List (Cx × MatF Cx)
  itersOut : Int
  r1 : Cx
  r2 : Cx
  u : MatF Cx
  iter : Int

/-- Method 3 body after the complex_y(0) = 1 seed write: complex-promoted
A and A*A, u = y/EuclideanNorm(y), roots initialised to 0 with previous
values 1e18, the loop, the eigenvector recovery v1(i) = u2(i) - r2*u1(i)
and v2(i) = u1(i) - u2(i)/r1, the out-parameter logic (-1 exactly when
iter >= max_iters), and the squared-modulus norm filter against the
complex-instantiation epsilon epsC. -/
def method3Core (E : Collab) (epsQ : ℚ) (epsC : Cx) (a : MatF ℚ)
    (cy : MatF Cx) (maxIters : Int) : M3Res :=
  let sa := mmul a a
  let ca := toComplexM a
  let ca2 := toComplexM sa
  let u0 := mdiv cy (E.normC cy)
  let s := method3Go E epsQ ca ca2 maxIters (maxIters.toNat + 1)
      ⟨cy, u0, 0, 0, q2c bigQ, q2c bigQ, 0⟩
  let u1 := mmul ca s.u
  let u2 := mmul ca2 s.u
  let v1 : MatF Cx := ⟨s.u.rows, 1, fun i _ => u2.entry i 0 - s.r2 * u1.entry i 0⟩
  let v2 : MatF Cx := ⟨s.u.rows, 1, fun i _ => u1.entry i 0 - u2.entry i 0 / s.r1⟩
  let io := if maxIters ≤ s.iter then -1 else s.iter + 1
  let ans := (if normSqC epsC < normSqC (E.normC v1) then [(s.r1, v1)] else [])
      ++ (if normSqC epsC < normSqC (E.normC v2) then [(s.r2, v2)] else [])
  ⟨ans, io, s.r1, s.r2, s.u, s.iter⟩

/-- PowerMethodEigenvalues3: the square check, the complex seed write
complex_y(0) = 1 (out_of_range when the matrix has no rows), the core. -/
def powerMethodEigenvalues3 (E : Collab) (epsQ : ℚ) (epsC : Cx) (a : MatF ℚ)
    (maxIters : Int) : Except MatErr M3Res :=
  if ¬ a.rows = a.cols then .error (.invalidArgument (notSquareMsg a))
  else
    match setSingleE (constMat a.rows 1 (0 : Cx)) 0 1 with
    | .error e => .error e
    | .ok cy => .ok (method3Core E epsQ epsC a cy maxIters)

/-- The n-by-1 unit seed: a zero-filled column with entry (0, 0) set to 1. -/
def e0colQ (n : Nat) : MatF ℚ := updateEntry (constMat n 1 0) 0 0 1

/-- The complex n-by-1 unit seed. -/
def e0colC (n : Nat) : MatF Cx := updateEntry (constMat n 1 (0 : Cx)) 0 0 1

/-- The dispatcher's default (no-override) block: build the seed, run the
Method 2 probe at the loose 0.1 tolerance, and if the probe signalled
success (iters >= 0) rerun Method 2 at the configured epsilon on the y the
probe left behind; return the refined results (summing the counts) when the
rerun succeeds with a nonempty list, otherwise Method 3's results. -/
def dispatchDefault (E : Collab) (epsQ : ℚ) (epsC : Cx) (a : MatF ℚ)
    (maxIters : Int) : Except MatErr (List (Cx × MatF Cx) × Int) :=
  match setSingleE (constMat a.rows 1 (0 : ℚ)) 0 1 with
  | .error e => .error e
  | .ok y =>
    match powerMethodEigenvalues2 E a y maxIters (1 / 10) with
    | .error e => .error e
    | .ok probe =>
      if 0 ≤ probe.itersOut then
        match powerMethodEigenvalues2 E a probe.yOut maxIters epsQ with
        | .error e => .error e
        | .ok refined =>
          if 0 ≤ refined.itersOut ∧ ¬ refined.ans.isEmpty then
            .ok (refined.ans, probe.itersOut + refined.itersOut)
          else
            (powerMethodEigenvalues3 E epsQ epsC a maxIters).map
              (fun r => (r.ans, r.itersOut))
      else
        (powerMethodEigenvalues3 E epsQ epsC a maxIters).map
          (fun r => (r.ans, r.itersOut))

/-- PowerMethodEigenvalues, the dispatcher: a forced method 0/1/2 selects
Method 1/2/3 after seeding a fresh y (any other non -1 value falls through
to the default block, as does force_method = -1).  epsQ and epsC model the
per-type global Matrix<T>::GetEps() values; check_iters and check_step are
accepted and unused, as in the source. -/
def powerMethodEigenvalues (E : Collab) (epsQ : ℚ) (epsC : Cx) (a : MatF ℚ)
    (maxIters _checkIters _checkStep forceMethod : Int) :
    Except MatErr (List (Cx × MatF Cx) × Int) :=
  if ¬ forceMethod = -1 then
    match setSingleE (constMat a.rows 1 (0 : ℚ)) 0 1 with
    | .error e => .error e
    | .ok y =>
      if forceMethod = 0 then
        match powerMethodEigenvalues1 E epsQ a y maxIters with
        | .error e => .error e
        | .ok r => .ok ([(q2c r.lam, toComplexM r.u)], r.itersOut)
      else if forceMethod = 1 then
        match powerMethodEigenvalues2 E a y maxIters epsQ with
        | .error e => .error e
        | .ok r => .ok (r.ans, r.itersOut)
      else if forceMethod = 2 then
        match powerMethodEigenvalues3 E epsQ epsC a maxIters with
        | .error e => .error e
        | .ok r => .ok (r.ans, r.itersOut)
      else dispatchDefault E epsQ epsC a maxIters
  else dispatchDefault E epsQ epsC a maxIters

/- Storage-level model of Matrix<T>, for the aliasing/view claims.  A MatR
is the header of a matrix object: the private fields of the class.  data_ is
an identifier of the shared backing buffer (the std::shared_ptr<T[]>); the
heap maps buffer identifiers and flat offsets to scalars.  Indices are Int,
as in the source. -/

/-- The header fields of a Matrix<T> object. -/
structure MatR where
  data_ : Nat
  data_rows_ : Int
  data_cols_ : Int
  rows_ : Int
  cols_ : Int
  offset_i_ : Int
  offset_j_ : Int
  deriving DecidableEq

/-- The backing store: buffer identifier and flat index to scalar. -/
def Heap (α : Type) : Type := Nat → Int → α

/-- The flat backing index data_[(i + offset_i_) * data_cols_ + offset_j_ + j]
that At(i, j) dereferences. -/
def flatIndex (m : MatR) (i j : Int) : Int :=
  (i + m.offset_i_) * m.data_cols_ + m.offset_j_ + j

/-- The raw dereference of At(i, j), without the bounds check. -/
def atReadR {α : Type} (h : Heap α) (m : MatR) (i j : Int) : α :=
  h m.data_ (flatIndex m i j)

/-- Message of the out_of_range error raised by At(i, j). -/
def oobMsgR (i j : Int) (m : MatR) : String :=
  "Indexes (" ++ toString i ++ "; " ++ toString j ++ ") out of matrix size "
    ++ pairToStringI m.rows_ m.cols_

/-- Reading At(i, j): the source's bounds check against the logical extents,
then the dereference of the flat backing index. -/
def readAtE {α : Type} (h : Heap α) (m : MatR) (i j : Int) : Except MatErr α :=
  if i < 0 ∨ j < 0 ∨ m.rows_ ≤ i ∨ m.cols_ ≤ j then
    .error (.outOfRange (oobMsgR i j m))
  else .ok (atReadR h m i j)

/-- A write to one backing cell. -/
def heapWrite {α : Type} (h : Heap α) (b : Nat) (n : Int) (v : α) : Heap α :=
  fun b' n' => if b' = b ∧ n' = n then v else h b' n'

/-- Writing through At(i, j): same bounds check, then the store to the flat
backing index. -/
def writeAtE {α : Type} (h : Heap α) (m : MatR) (i j : Int) (v : α) :
    Except MatErr (Heap α) :=
  if i < 0 ∨ j < 0 ∨ m.rows_ ≤ i ∨ m.cols_ ≤ j then
    .error (.outOfRange (oobMsgR i j m))
  else .ok (heapWrite h m.data_ (flatIndex m i j) v)

/-- Reading At(i) on a vector: row-vector branch first, then column branch,
runtime_error otherwise. -/
def readSingleE {α : Type} (h : Heap α) (m : MatR) (i : Int) : Except MatErr α :=
  if m.rows_ = 1 then readAtE h m 0 i
  else if m.cols_ = 1 then readAtE h m i 0
  else .error (.runtimeError
    ("trying to get value by single index in matrix of size "
      ++ pairToStringI m.rows_ m.cols_))

/-- Writing through At(i) on a vector. -/
def writeSingleE {α : Type} (h : Heap α) (m : MatR) (i : Int) (v : α) :
    Except MatErr (Heap α) :=
  if m.rows_ = 1 then writeAtE h m 0 i v
  else if m.cols_ = 1 then writeAtE h m i 0 v
  else .error (.runtimeError
    ("trying to get value by single index in matrix of size "
      ++ pairToStringI m.rows_ m.cols_))

/-- Matrix<T>::SubMatrix(i, j, n, m): a view sharing the backing buffer,
with the offsets composed additively, the backing extents copied, and the
-1 extents meaning "to the end". -/
def subMatrixR (m : MatR) (i j n mm : Int) : MatR :=
  { data_ := m.data_
    data_rows_ := m.data_rows_
    data_cols_ := m.data_cols_
    rows_ := if n = -1 then m.rows_ - i else n
    cols_ := if mm = -1 then m.cols_ - j else mm
    offset_i_ := m.offset_i_ + i
    offset_j_ := m.offset_j_ + j }

/-- Matrix<T>::Row(i) = SubMatrix(i, 0, 1, Cols()). -/
def rowR (m : MatR) (i : Int) : MatR := subMatrixR m i 0 1 m.cols_

/-- Matrix<T>::Col(j) = SubMatrix(0, j, Rows(), 1). -/
def colR (m : MatR) (j : Int) : MatR := subMatrixR m 0 j m.rows_ 1

/-- Matrix<T>::CopyFrom(other): rebind to a freshly allocated owning buffer
of other's logical extents (MakeRef of a new Matrix), then Assign copies the
logical region element-wise.  fresh is the identifier of the new buffer; the
constructor's zero fill is fully overwritten by Assign over the same flat
region [0, rows*cols). -/
def copyFromR {α : Type} (h : Heap α) (fresh : Nat) (other : MatR) :
    MatR × Heap α :=
  ({ data_ := fresh
     data_rows_ := other.rows_
     data_cols_ := other.cols_
     rows_ := other.rows_
     cols_ := other.cols_
     offset_i_ := 0
     offset_j_ := 0 },
   fun b n =>
     if b = fresh ∧ 0 ≤ n ∧ n < other.rows_ * other.cols_ then
       atReadR h other (n / other.cols_) (n % other.cols_)
     else h b n)

/-- The header of a default-constructed Matrix(): Matrix(0, 0) with a fresh
empty buffer. -/
def defaultMatR (fresh : Nat) : MatR :=
  { data_ := fresh, data_rows_ := 0, data_cols_ := 0, rows_ := 0, cols_ := 0,
    offset_i_ := 0, offset_j_ := 0 }

/-- The default-empty state the spec describes for moved-from matrices. -/
def isDefaultEmpty (m : MatR) : Prop :=
  m.rows_ = 0 ∧ m.cols_ = 0 ∧ m.data_rows_ = 0 ∧ m.data_cols_ = 0 ∧
    m.offset_i_ = 0 ∧ m.offset_j_ = 0

instance (m : MatR) : Decidable (isDefaultEmpty m) := by
  unfold isDefaultEmpty; infer_instance

/-- The move constructor Matrix(Matrix&& other): delegate to Matrix() then
Swap(other).  Returns (constructed object, moved-from source); fresh is the
empty buffer the delegated default constructor allocated. -/
def moveCtorR (other : MatR) (fresh : Nat) : MatR × MatR :=
  (other, defaultMatR fresh)

/-- The move assignment operator=(Matrix&& b): this->Swap(b).  Returns
(assigned-to object, moved-from source): the source receives the target's
previous header. -/
def moveAssignR (t s : MatR) : MatR × MatR := (s, t)

/-- A trivial instantiation of the external collaborators, used to evaluate
the model at concrete inputs. -/
def trivCollab : Collab :=
  { normF := fun _ => 1
    normC := fun _ => 1
    sqrtF := fun q => q
    absC := fun _ => 1
    minSq := fun _ _ => constMat 2 1 0
    solveQuad := fun _ _ _ => (0, 0) }

/-- A collaborator instantiation whose vector norm reads entry (0, 0), used
to run the Method 2 loop concretely on 1-by-1 matrices. -/
def probeCollab : Collab :=
  { normF := fun m => m.entry 0 0
    normC := fun m => m.entry 0 0
    sqrtF := fun q => q
    absC := fun z => qabs z.re + qabs z.im
    minSq := fun _ _ => constMat 2 1 0
    solveQuad := fun _ _ _ => (0, 0) }

/-- The concrete 1-by-1 matrix [[2]]. -/
def mat2 : MatF ℚ := constMat 1 1 2

/-- A concrete 2-by-2 owning matrix header on buffer 0. -/
def hdrA : MatR :=
  { data_ := 0, data_rows_ := 2, data_cols_ := 2, rows_ := 2, cols_ := 2,
    offset_i_ := 0, offset_j_ := 0 }

/-- A concrete 1-by-1 owning matrix header on buffer 1. -/
def hdrB : MatR :=
  { data_ := 1, data_rows_ := 1, data_cols_ := 1, rows_ := 1, cols_ := 1,
    offset_i_ := 0, offset_j_ := 0 }

/-- The 1-by-1 complex matrix [[i]]. -/
def vI : MatF Cx := constMat 1 1 (Cx.mk 0 1)

/- ------------------------------------------------------------------ -/
/- Theorems.  Helper lemmas first, then one theorem per claim (with its
   witness or counterexample). -/
/- ------------------------------------------------------------------ -/

/-- Two Cx values with equal parts are equal. -/
theorem cxExt {a b : Cx} (h1 : a.re = b.re) (h2 : a.im = b.im) : a = b := by
  cases a; cases b; simp_all

/-- Unfolding lemma for the Cx product. -/
theorem cx_mul_def (a b : Cx) :
    a * b = ⟨a.re * b.re - a.im * b.im, a.re * b.im + a.im * b.re⟩ := rfl

/-- Unfolding lemma for the Cx sum. -/
theorem cx_add_def (a b : Cx) : a + b = ⟨a.re + b.re, a.im + b.im⟩ := rfl

/-- Unfolding lemma for the Cx difference. -/
theorem cx_sub_def (a b : Cx) : a - b = ⟨a.re - b.re, a.im - b.im⟩ := rfl

/-- Unfolding lemma for the Cx negation. -/
theorem cx_neg_def (a : Cx) : -a = ⟨-a.re, -a.im⟩ := rfl

/-- Unfolding lemma for the Cx zero. -/
theorem cx_zero_def : (0 : Cx) = ⟨0, 0⟩ := rfl

/-- Unfolding lemma for the Cx one. -/
theorem cx_one_def : (1 : Cx) = ⟨1, 0⟩ := rfl

/-- Unfolding lemma for the Cx quotient. -/
theorem cx_div_def (a b : Cx) :
    a / b = ⟨(a.re * b.re + a.im * b.im) / (b.re * b.re + b.im * b.im),
      (a.im * b.re - a.re * b.im) / (b.re * b.re + b.im * b.im)⟩ := rfl

/-- The single-index write y(0) = v on a column vector with at least one
row lands on entry (0, 0). -/
theorem setSingleE_col {α : Type} (m : MatF α) (v : α) (hc : m.cols = 1)
    (hr : 1 ≤ m.rows) : setSingleE m 0 v = .ok (updateEntry m 0 0 v) := by
  by_cases h1 : m.rows = 1
  · rw [setSingleE, if_pos h1, if_pos (by omega)]
  · rw [setSingleE, if_neg h1, if_pos hc, if_pos (by omega)]

/-- C8: for every square matrix A and nonnegative configured epsilon,
(A + Zeros) == A and (A - A) == Zeros hold, where Zeros is the zero matrix
of A's size, + and - carry the size assertion of the source, and == is the
epsilon-tolerant comparison derived from operator!=. -/
theorem c8_additive_identities (eps : ℚ) (a : MatF ℚ) (heps : 0 ≤ eps)
    (_hsq : a.rows = a.cols) :
    (maddE a (mzeros a.rows a.cols) = .ok (madd a (mzeros a.rows a.cols)) ∧
      meqE eps (madd a (mzeros a.rows a.cols)) a = .ok true) ∧
    (msubE a a = .ok (msub a a) ∧
      meqE eps (msub a a) (mzeros a.rows a.cols) = .ok true) := by
  have h1 : ¬ matNeq eps (madd a (mzeros a.rows a.cols)) a := by
    rintro ⟨i, hi, j, hj, (h | h | h)⟩
    · exact h rfl
    · exact h rfl
    · simp only [madd, mzeros, constMat, add_zero, sub_self, qabs] at h
      rw [if_neg (lt_irrefl 0)] at h
      exact absurd h (not_lt.mpr heps)
  have h2 : ¬ matNeq eps (msub a a) (mzeros a.rows a.cols) := by
    rintro ⟨i, hi, j, hj, (h | h | h)⟩
    · exact h rfl
    · exact h rfl
    · simp only [msub, mzeros, constMat, sub_self, sub_zero, qabs] at h
      rw [if_neg (lt_irrefl 0)] at h
      exact absurd h (not_lt.mpr heps)
  refine ⟨⟨?_, ?_⟩, ?_, ?_⟩
  · rw [maddE, if_neg (not_not_intro ⟨rfl, rfl⟩)]
  · rw [meqE, if_neg (not_not_intro ⟨rfl, rfl⟩)]
    simp [h1]
  · rw [msubE, if_neg (not_not_intro ⟨rfl, rfl⟩)]
  · rw [meqE, if_neg (not_not_intro ⟨rfl, rfl⟩)]
    simp [h2]

/-- C8 witness: the identities at the concrete 2-by-2 matrix of ones with
epsilon 1/100. -/
theorem c8_additive_identities_witness :
    (0 : ℚ) ≤ 1 / 100 ∧
    ((maddE (constMat 2 2 (1 : ℚ)) (mzeros 2 2) =
        .ok (madd (constMat 2 2 (1 : ℚ)) (mzeros 2 2)) ∧
      meqE (1 / 100) (madd (constMat 2 2 (1 : ℚ)) (mzeros 2 2))
        (constMat 2 2 (1 : ℚ)) = .ok true) ∧
    (msubE (constMat 2 2 (1 : ℚ)) (constMat 2 2 (1 : ℚ)) =
        .ok (msub (constMat 2 2 (1 : ℚ)) (constMat 2 2 (1 : ℚ))) ∧
      meqE (1 / 100) (msub (constMat 2 2 (1 : ℚ)) (constMat 2 2 (1 : ℚ)))
        (mzeros 2 2) = .ok true)) :=
  ⟨by norm_num,
   c8_additive_identities (1 / 100) (constMat 2 2 (1 : ℚ)) (by norm_num) rfl⟩

/-- C9: ScalarProduct raises runtime_error whenever either operand is not a
vector; raises invalid_argument when both are vectors of differing (rows,
cols) size; and on equally sized vectors returns the plain accumulated sum
of elementwise products of the complex scalars, with no conjugation. -/
theorem c9_scalar_product (a b : MatF Cx) :
    (¬ (isVecM a ∧ isVecM b) →
      scalarProductE a b = .error (.runtimeError
        ("Matrices of sizes " ++ pairToString a.rows a.cols ++ " and "
          ++ pairToString b.rows b.cols ++ " are not both vectors"))) ∧
    (isVecM a → isVecM b → ¬ (a.rows = b.rows ∧ a.cols = b.cols) →
      scalarProductE a b = .error (.invalidArgument (sizesMsg a b))) ∧
    (isVecM a → isVecM b → a.rows = b.rows → a.cols = b.cols →
      scalarProductE a b =
        .ok (sumTo (max a.cols a.rows) (fun i => atSingleT a i * atSingleT b i))) := by
  refine ⟨?_, ?_, ?_⟩
  · intro h
    rw [scalarProductE, if_pos (not_and_or.mp h)]
  · intro ha hb hs
    rw [scalarProductE, if_neg (by tauto), if_pos hs]
  · intro ha hb hr hc
    rw [scalarProductE, if_neg (by tauto), if_neg (not_not_intro ⟨hr, hc⟩)]
    rfl

/-- C9 witness: at the 1-by-1 complex vectors [[i]] and [[i]] the checks
pass and the returned scalar is i*i = -1 (a conjugating product would give
conj(i)*i = +1), witnessing that no conjugation happens. -/
theorem c9_scalar_product_witness :
    (scalarProductE vI vI =
      .ok (sumTo (max vI.cols vI.rows) (fun i => atSingleT vI i * atSingleT vI i))) ∧
    scalarProductE vI vI = .ok (Cx.mk (-1) 0) ∧
    cxConj (Cx.mk 0 1) * Cx.mk 0 1 = Cx.mk 1 0 :=
  ⟨(c9_scalar_product vI vI).2.2 (Or.inl rfl) (Or.inl rfl) rfl rfl,
   by
    rw [scalarProductE, if_neg (by simp [isVecM, vI, constMat]),
      if_neg (not_not_intro ⟨rfl, rfl⟩)]
    simp only [dotP, vI, constMat, sumTo, atSingleT, cx_mul_def, cx_add_def,
      cx_zero_def]
    norm_num,
   by
    simp only [cxConj, cx_mul_def]
    norm_num⟩

/-- Field computation for Row(0): a 1-row view with the parent's column
extent, offsets and buffer. -/
theorem rowR_zero_fields (A : MatR) :
    (rowR A 0).data_ = A.data_ ∧ (rowR A 0).rows_ = 1 ∧
    (rowR A 0).cols_ = A.cols_ ∧ (rowR A 0).offset_i_ = A.offset_i_ ∧
    (rowR A 0).offset_j_ = A.offset_j_ ∧ (rowR A 0).data_cols_ = A.data_cols_ := by
  refine ⟨rfl, ?_, ?_, add_zero _, add_zero _, rfl⟩
  · show (if (1 : Int) = -1 then A.rows_ - 0 else 1) = 1
    norm_num
  · show (if A.cols_ = -1 then A.cols_ - 0 else A.cols_) = A.cols_
    by_cases hc : A.cols_ = -1 <;> simp [hc]

/-- The flat backing index of element (0, 0) of Row(0) coincides with that
of element (0, 0) of the parent. -/
theorem flat_rowR (A : MatR) : flatIndex (rowR A 0) 0 0 = flatIndex A 0 0 := by
  obtain ⟨_, _, _, e4, e5, e6⟩ := rowR_zero_fields A
  rw [flatIndex, flatIndex, e4, e5, e6]

/-- Inverting the flat row-major index: quotient and remainder by the column
count recover the coordinates. -/
theorem flat_inverse (i j cols : Int) (h0j : 0 ≤ j) (hj : j < cols) :
    (i * cols + j) / cols = i ∧ (i * cols + j) % cols = j := by
  constructor
  · rw [add_comm, Int.add_mul_ediv_right _ _ (by omega : cols ≠ 0),
      Int.ediv_eq_zero_of_lt h0j hj, zero_add]
  · rw [add_comm, Int.add_mul_emod_self, Int.emod_eq_of_lt h0j hj]

/-- The flat row-major index of an in-bounds coordinate lies in the region
[0, rows*cols). -/
theorem flat_bound (i j rows cols : Int) (h0i : 0 ≤ i) (hi : i < rows)
    (h0j : 0 ≤ j) (hj : j < cols) :
    0 ≤ i * cols + j ∧ i * cols + j < rows * cols := by
  constructor
  · have : 0 ≤ i * cols := mul_nonneg h0i (by omega)
    omega
  · have h2 : (i + 1) * cols ≤ rows * cols :=
      mul_le_mul_of_nonneg_right (by omega) (by omega)
    have h4 : i * cols + cols = (i + 1) * cols := by ring
    omega

/-- C6: every matrix satisfies the view invariant: SubMatrix shares the
backing buffer with offsets composed additively; in-bounds element access at
logical (i, j) reads and writes backing index (i+offset_i, j+offset_j); and
for any matrix with a valid (0, 0) index, a write through Row(0) at single
index 0 is read back through A at (0, 0), and a write through A at (0, 0)
is read back through the Row(0) view. -/
theorem c6_view_invariant {α : Type} (h : Heap α) (A : MatR) (i j n mm : Int)
    (v : α) :
    ((subMatrixR A i j n mm).data_ = A.data_ ∧
     (subMatrixR A i j n mm).offset_i_ = A.offset_i_ + i ∧
     (subMatrixR A i j n mm).offset_j_ = A.offset_j_ + j ∧
     (subMatrixR A i j n mm).data_cols_ = A.data_cols_) ∧
    (0 ≤ i → i < A.rows_ → 0 ≤ j → j < A.cols_ →
      readAtE h A i j =
        .ok (h A.data_ ((i + A.offset_i_) * A.data_cols_ + A.offset_j_ + j)) ∧
      writeAtE h A i j v =
        .ok (heapWrite h A.data_
          ((i + A.offset_i_) * A.data_cols_ + A.offset_j_ + j) v)) ∧
    (0 < A.rows_ → 0 < A.cols_ →
      ∃ h2, writeSingleE h (rowR A 0) 0 v = .ok h2 ∧ readAtE h2 A 0 0 = .ok v) ∧
    (0 < A.rows_ → 0 < A.cols_ →
      ∃ h3, writeAtE h A 0 0 v = .ok h3 ∧ readSingleE h3 (rowR A 0) 0 = .ok v) := by
  obtain ⟨e1, e2, e3, e4, e5, e6⟩ := rowR_zero_fields A
  refine ⟨⟨rfl, rfl, rfl, rfl⟩, ?_, ?_, ?_⟩
  · intro h1 h2 h3 h4
    constructor
    · rw [readAtE, if_neg (by omega)]
      rfl
    · rw [writeAtE, if_neg (by omega)]
      rfl
  · intro hr hc
    refine ⟨heapWrite h A.data_ (flatIndex A 0 0) v, ?_, ?_⟩
    · rw [writeSingleE, if_pos e2, writeAtE, if_neg (by rw [e2, e3]; omega),
        e1, flat_rowR]
    · rw [readAtE, if_neg (by omega), atReadR, heapWrite]
      simp
  · intro hr hc
    refine ⟨heapWrite h A.data_ (flatIndex A 0 0) v, ?_, ?_⟩
    · rw [writeAtE, if_neg (by omega)]
    · rw [readSingleE, if_pos e2, readAtE, if_neg (by rw [e2, e3]; omega),
        atReadR, e1, flat_rowR, heapWrite]
      simp

/-- C6 witness: the invariant instantiated at a concrete 2-by-2 owning
matrix over an all-zero Int heap, writing the value 7. -/
theorem c6_view_invariant_witness :
    (0 : Int) < hdrA.rows_ ∧ (0 : Int) < hdrA.cols_ ∧
    (((subMatrixR hdrA 1 1 1 1).data_ = hdrA.data_ ∧
      (subMatrixR hdrA 1 1 1 1).offset_i_ = hdrA.offset_i_ + 1 ∧
      (subMatrixR hdrA 1 1 1 1).offset_j_ = hdrA.offset_j_ + 1 ∧
      (subMatrixR hdrA 1 1 1 1).data_cols_ = hdrA.data_cols_) ∧
    ((0 : Int) ≤ 1 → (1 : Int) < hdrA.rows_ → (0 : Int) ≤ 1 → (1 : Int) < hdrA.cols_ →
      readAtE (fun _ _ => (0 : Int)) hdrA 1 1 =
        .ok ((fun _ _ => (0 : Int)) hdrA.data_
          ((1 + hdrA.offset_i_) * hdrA.data_cols_ + hdrA.offset_j_ + 1)) ∧
      writeAtE (fun _ _ => (0 : Int)) hdrA 1 1 7 =
        .ok (heapWrite (fun _ _ => (0 : Int)) hdrA.data_
          ((1 + hdrA.offset_i_) * hdrA.data_cols_ + hdrA.offset_j_ + 1) 7)) ∧
    ((0 : Int) < hdrA.rows_ → (0 : Int) < hdrA.cols_ →
      ∃ h2, writeSingleE (fun _ _ => (0 : Int)) (rowR hdrA 0) 0 7 = .ok h2 ∧
        readAtE h2 hdrA 0 0 = .ok 7) ∧
    ((0 : Int) < hdrA.rows_ → (0 : Int) < hdrA.cols_ →
      ∃ h3, writeAtE (fun _ _ => (0 : Int)) hdrA 0 0 7 = .ok h3 ∧
        readSingleE h3 (rowR hdrA 0) 0 = .ok 7)) :=
  ⟨by decide, by decide, c6_view_invariant (fun _ _ => (0 : Int)) hdrA 1 1 1 1 7⟩

/-- A store into one buffer leaves every read through a matrix on a
different buffer unchanged. -/
theorem readAt_other_buffer {α : Type} (H : Heap α) (b : Nat) (n : Int)
    (v : α) (m : MatR) (hb : ¬ m.data_ = b) (i j : Int) :
    readAtE (heapWrite H b n v) m i j = readAtE H m i j := by
  rw [readAtE, readAtE]
  by_cases hbnd : i < 0 ∨ j < 0 ∨ m.rows_ ≤ i ∨ m.cols_ ≤ j
  · rw [if_pos hbnd, if_pos hbnd]
  · rw [if_neg hbnd, if_neg hbnd]
    congr 1
    simp only [atReadR, heapWrite]
    rw [if_neg (fun hc => hb hc.1)]

/-- C7 (amended): copy construction allocates a fresh buffer and copies the
logical region element-wise, so mutations of the copy and the original never
affect each other; after MOVE CONSTRUCTION the source is left default-empty;
but MOVE ASSIGNMENT is implemented as Swap, so the moved-from source
receives the target's previous header (default-empty only when the target
was default), not the default-empty state in general. -/
theorem c7_copy_and_move {α : Type} (h : Heap α) (other : MatR)
    (fresh fresh2 : Nat) (t s : MatR) (i j : Int) (v : α)
    (hfr : ¬ fresh = other.data_) (h0i : 0 ≤ i) (hi : i < other.rows_)
    (h0j : 0 ≤ j) (hj : j < other.cols_) :
    ((copyFromR h fresh other).1.data_ = fresh ∧
     (copyFromR h fresh other).1.rows_ = other.rows_ ∧
     (copyFromR h fresh other).1.cols_ = other.cols_ ∧
     (copyFromR h fresh other).1.offset_i_ = 0 ∧
     (copyFromR h fresh other).1.offset_j_ = 0) ∧
    (readAtE (copyFromR h fresh other).2 (copyFromR h fresh other).1 i j =
      .ok (atReadR h other i j)) ∧
    (∀ h2, writeAtE (copyFromR h fresh other).2 (copyFromR h fresh other).1 i j v
        = .ok h2 →
      ∀ i' j', readAtE h2 other i' j' =
        readAtE (copyFromR h fresh other).2 other i' j') ∧
    (∀ h3, writeAtE (copyFromR h fresh other).2 other i j v = .ok h3 →
      ∀ i' j', readAtE h3 (copyFromR h fresh other).1 i' j' =
        readAtE (copyFromR h fresh other).2 (copyFromR h fresh other).1 i' j') ∧
    ((moveCtorR other fresh2).1 = other ∧
      isDefaultEmpty (moveCtorR other fresh2).2) ∧
    moveAssignR t s = (s, t) := by
  have hcols : (0 : Int) < other.cols_ := by omega
  have hflat : flatIndex (copyFromR h fresh other).1 i j = i * other.cols_ + j := by
    simp only [copyFromR, flatIndex]
    ring
  have hb := flat_bound i j other.rows_ other.cols_ h0i hi h0j hj
  have hinv := flat_inverse i j other.cols_ h0j hj
  have hsym : ¬ other.data_ = fresh := fun e => hfr e.symm
  refine ⟨⟨rfl, rfl, rfl, rfl, rfl⟩, ?_, ?_, ?_, ⟨rfl, ?_⟩, rfl⟩
  · rw [readAtE]
    rw [if_neg (by simp only [copyFromR]; omega)]
    rw [atReadR, hflat]
    show Except.ok (if fresh = fresh ∧ 0 ≤ i * other.cols_ + j ∧
        i * other.cols_ + j < other.rows_ * other.cols_ then
        atReadR h other ((i * other.cols_ + j) / other.cols_)
          ((i * other.cols_ + j) % other.cols_)
      else h fresh (i * other.cols_ + j)) = _
    rw [if_pos ⟨rfl, hb.1, hb.2⟩, hinv.1, hinv.2]
  · intro h2 hw i' j'
    rw [writeAtE, if_neg (by simp only [copyFromR]; omega)] at hw
    cases hw
    exact readAt_other_buffer _ _ _ _ other hsym i' j'
  · intro h3 hw i' j'
    rw [writeAtE, if_neg (by omega)] at hw
    cases hw
    exact readAt_other_buffer _ _ _ _ (copyFromR h fresh other).1 hfr i' j'
  · exact ⟨rfl, rfl, rfl, rfl, rfl, rfl⟩

/-- C7 counterexample: move-assigning the 1-by-1 matrix hdrB into the
2-by-2 matrix hdrA leaves the moved-from source holding hdrA's previous
2-row header, not the default-empty (0-row) state the claim asserts for
every move. -/
theorem c7_counterexample : ((moveAssignR hdrA hdrB).2).rows_ = 2 := rfl

/-- C7 witness: the amended statement at a concrete all-zero Int heap,
copying the 2-by-2 matrix hdrA into fresh buffer 5, and move-assigning
hdrB into hdrA. -/
theorem c7_copy_and_move_witness :
    ¬ (5 : Nat) = hdrA.data_ ∧
    (((copyFromR (fun _ _ => (0 : Int)) 5 hdrA).1.data_ = 5 ∧
      (copyFromR (fun _ _ => (0 : Int)) 5 hdrA).1.rows_ = hdrA.rows_ ∧
      (copyFromR (fun _ _ => (0 : Int)) 5 hdrA).1.cols_ = hdrA.cols_ ∧
      (copyFromR (fun _ _ => (0 : Int)) 5 hdrA).1.offset_i_ = 0 ∧
      (copyFromR (fun _ _ => (0 : Int)) 5 hdrA).1.offset_j_ = 0) ∧
    (readAtE (copyFromR (fun _ _ => (0 : Int)) 5 hdrA).2
        (copyFromR (fun _ _ => (0 : Int)) 5 hdrA).1 1 0 =
      .ok (atReadR (fun _ _ => (0 : Int)) hdrA 1 0)) ∧
    (∀ h2, writeAtE (copyFromR (fun _ _ => (0 : Int)) 5 hdrA).2
        (copyFromR (fun _ _ => (0 : Int)) 5 hdrA).1 1 0 9 = .ok h2 →
      ∀ i' j', readAtE h2 hdrA i' j' =
        readAtE (copyFromR (fun _ _ => (0 : Int)) 5 hdrA).2 hdrA i' j') ∧
    (∀ h3, writeAtE (copyFromR (fun _ _ => (0 : Int)) 5 hdrA).2 hdrA 1 0 9 =
        .ok h3 →
      ∀ i' j', readAtE h3 (copyFromR (fun _ _ => (0 : Int)) 5 hdrA).1 i' j' =
        readAtE (copyFromR (fun _ _ => (0 : Int)) 5 hdrA).2
          (copyFromR (fun _ _ => (0 : Int)) 5 hdrA).1 i' j') ∧
    ((moveCtorR hdrA 6).1 = hdrA ∧ isDefaultEmpty (moveCtorR hdrA 6).2) ∧
    moveAssignR hdrA hdrB = (hdrB, hdrA)) :=
  ⟨by decide,
   c7_copy_and_move (fun _ _ => (0 : Int)) hdrA 5 6 hdrA hdrB 1 0 9
     (by decide) (by decide) (by decide) (by decide) (by decide)⟩

/-- The Method 1 loop never decreases the iteration counter below its
starting value; in particular it stays nonnegative. -/
theorem method1Go_iter_nonneg (E : Collab) (a : MatF ℚ) (eps : ℚ) (mi : Int) :
    ∀ fuel s, 0 ≤ s.iter → 0 ≤ (method1Go E a eps mi fuel s).iter := by
  intro fuel
  induction fuel with
  | zero => intro s hs; exact hs
  | succ n ih =>
    intro s hs
    rw [method1Go]
    by_cases hg : eps < qabs (s.prev - s.lam)
    · rw [if_pos hg]
      by_cases hb : mi < s.iter + 1
      · rw [if_pos hb]
        show 0 ≤ s.iter + 1
        omega
      · rw [if_neg hb]
        exact ih _ (by show 0 ≤ s.iter + 1; omega)
    · rw [if_neg hg]
      exact hs

/-- PowerMethodEigenvalues2 on a square matrix returns the core normally. -/
theorem pm2_ok (E : Collab) (a y : MatF ℚ) (mi : Int) (eps : ℚ)
    (hsq : a.rows = a.cols) :
    powerMethodEigenvalues2 E a y mi eps = .ok (method2Core E a y mi eps) := by
  rw [powerMethodEigenvalues2, if_neg (not_not_intro hsq)]

/-- PowerMethodEigenvalues3 on a square matrix with at least one row seeds
the complex unit column and returns the core normally. -/
theorem pm3_ok (E : Collab) (epsQ : ℚ) (epsC : Cx) (a : MatF ℚ) (mi : Int)
    (hsq : a.rows = a.cols) (hn : 1 ≤ a.rows) :
    powerMethodEigenvalues3 E epsQ epsC a mi =
      .ok (method3Core E epsQ epsC a (e0colC a.rows) mi) := by
  rw [powerMethodEigenvalues3, if_neg (not_not_intro hsq),
    setSingleE_col (constMat a.rows 1 (0 : Cx)) 1 rfl hn]
  rfl

/-- Method 1's core is the post-loop state with the out-parameter rule
applied to it, and the loop counter is nonnegative. -/
theorem method1Core_spec (E : Collab) (eps : ℚ) (a y1 : MatF ℚ) (mi : Int) :
    ∃ s : LoopSt, 0 ≤ s.iter ∧
      method1Core E eps a y1 mi =
        ⟨s.lam, s.u, s.y, s.iter,
         if mi ≤ s.iter ∨ E.normF s.u < eps then -1 else s.iter + 1⟩ := by
  refine ⟨method1Go E a eps mi (mi.toNat + 1)
    ⟨mdiv y1 (E.normF y1), y1,
     dotP (mdiv y1 (E.normF y1)) (mmul a (mdiv y1 (E.normF y1))), bigQ, 0⟩,
    ?_, rfl⟩
  exact method1Go_iter_nonneg E a eps mi _ _ (le_refl 0)

/-- C4: on square input with at least one row, none of the three methods
raises an error; convergence failure is signalled only through the iteration
out-parameter.  For Method 1 the -1 sentinel appears exactly when the
returned iteration count iter+1 would exceed max_iters or the final iterate
has norm below eps, and otherwise the out-parameter carries the positive
count iter+1. -/
theorem c4_convergence_signaling (E : Collab) (eps : ℚ) (epsC : Cx)
    (a y0 : MatF ℚ) (maxIters : Int) (hsq : a.rows = a.cols)
    (hn : 1 ≤ a.rows) (_hyr : y0.rows = a.rows) (hyc : y0.cols = 1) :
    (∃ r1, powerMethodEigenvalues1 E eps a y0 maxIters = .ok r1 ∧
      (r1.itersOut = -1 ↔ (maxIters < r1.iter + 1 ∨ E.normF r1.u < eps)) ∧
      (¬ r1.itersOut = -1 → r1.itersOut = r1.iter + 1 ∧ 0 < r1.itersOut)) ∧
    (∃ r2, powerMethodEigenvalues2 E a y0 maxIters eps = .ok r2) ∧
    (∃ r3, powerMethodEigenvalues3 E eps epsC a maxIters = .ok r3) := by
  obtain ⟨s, hs, hcore⟩ := method1Core_spec E eps a (updateEntry y0 0 0 1) maxIters
  have hy1 : 1 ≤ y0.rows := by omega
  refine ⟨⟨method1Core E eps a (updateEntry y0 0 0 1) maxIters, ?_, ?_, ?_⟩,
    ⟨method2Core E a y0 maxIters eps, pm2_ok E a y0 maxIters eps hsq⟩,
    ⟨method3Core E eps epsC a (e0colC a.rows) maxIters,
      pm3_ok E eps epsC a maxIters hsq hn⟩⟩
  · rw [powerMethodEigenvalues1, if_neg (not_not_intro hsq),
      setSingleE_col _ _ hyc hy1]
  · rw [hcore]
    dsimp only
    by_cases hc : maxIters ≤ s.iter ∨ E.normF s.u < eps
    · rw [if_pos hc]
      constructor
      · intro _
        rcases hc with hc | hc
        · left; omega
        · right; exact hc
      · intro _; rfl
    · rw [if_neg hc]
      push_neg at hc
      constructor
      · intro he
        exfalso
        omega
      · rintro (hor | hor)
        · exfalso; omega
        · exact absurd hor (not_lt.mpr hc.2)
  · rw [hcore]
    dsimp only
    by_cases hc : maxIters ≤ s.iter ∨ E.normF s.u < eps
    · rw [if_pos hc]
      intro hne
      exact absurd rfl hne
    · rw [if_neg hc]
      intro _
      exact ⟨rfl, by omega⟩

/-- C4 witness: the signalling contract at the concrete 1-by-1 matrix [[2]]
with the unit seed. -/
theorem c4_convergence_signaling_witness :
    (e0colQ 1).cols = 1 ∧
    ((∃ r1, powerMethodEigenvalues1 probeCollab (1 / 10) mat2 (e0colQ 1) 5 = .ok r1 ∧
      (r1.itersOut = -1 ↔ ((5 : Int) < r1.iter + 1 ∨ probeCollab.normF r1.u < 1 / 10)) ∧
      (¬ r1.itersOut = -1 → r1.itersOut = r1.iter + 1 ∧ 0 < r1.itersOut)) ∧
    (∃ r2, powerMethodEigenvalues2 probeCollab mat2 (e0colQ 1) 5 (1 / 10) = .ok r2) ∧
    (∃ r3, powerMethodEigenvalues3 probeCollab (1 / 10) 0 mat2 5 = .ok r3)) :=
  ⟨rfl, c4_convergence_signaling probeCollab (1 / 10) 0 mat2 (e0colQ 1) 5
    rfl (le_refl 1) rfl rfl⟩

/-- Pulling a constant factor out of the accumulation. -/
theorem sumTo_mul_right (n : Nat) (f : Nat → ℚ) (c : ℚ) :
    sumTo n (fun k => f k * c) = sumTo n f * c := by
  induction n with
  | zero => simp [sumTo]
  | succ m ih => simp [sumTo, ih, add_mul]

/-- (lambda * A) * u = lambda * (A * u): multiplying the matrix by a scalar
before the product equals scaling the product. -/
theorem mmul_msmul (a b : MatF ℚ) (c : ℚ) :
    mmul (msmul a c) b = msmul (mmul a b) c := by
  unfold mmul msmul
  congr 1
  funext i j
  rw [← sumTo_mul_right]
  congr 1
  funext k
  ring

/-- Method 2's core is the post-loop state with the candidate recovery, the
norm filter and the out-parameter rule applied to it. -/
theorem method2Core_spec (E : Collab) (a y0 : MatF ℚ) (mi : Int) (eps : ℚ) :
    ∃ s : LoopSt,
      method2Core E a y0 mi eps =
        (let a2 := mmul a a
         let v1 := mdiv (madd (mmul (msmul a s.lam) s.u) (mmul a2 s.u))
           (2 * s.lam * s.lam)
         let v2 := mdiv (madd (mmul (msmul a (-s.lam)) s.u) (mmul a2 s.u))
           (2 * s.lam * s.lam)
         let ans := (if eps < E.normF v1 then [(q2c s.lam, toComplexM v1)] else [])
             ++ (if eps < E.normF v2 then [(q2c (-s.lam), toComplexM v2)] else [])
         ⟨ans, if mi ≤ s.iter ∨ ans.isEmpty then -1 else s.iter + 1,
          s.y, s.lam, s.u, s.iter⟩) := by
  exact ⟨method2Go E a (mmul a a) eps mi (mi.toNat + 1)
    ⟨mdiv y0 (E.normF y0), y0,
     E.sqrtF (qabs (dotP (mdiv y0 (E.normF y0)) (mmul (mmul a a) (mdiv y0 (E.normF y0))))),
     bigQ, 0⟩, rfl⟩

/-- C3: after Method 2's loop ends with estimate lambda and iterate u, the
result list consists of exactly the candidates v1 = (lambda*A*u + A2*u) /
(2*lambda^2) paired with +lambda first and v2 = (-lambda*A*u + A2*u) /
(2*lambda^2) paired with -lambda second, each present exactly when its norm
exceeds eps; and the out-parameter is -1 whenever the list is empty. -/
theorem c3_method2_recovery (E : Collab) (a y0 : MatF ℚ) (maxIters : Int)
    (eps : ℚ) (hsq : a.rows = a.cols) :
    powerMethodEigenvalues2 E a y0 maxIters eps =
      .ok (method2Core E a y0 maxIters eps) ∧
    (let r := method2Core E a y0 maxIters eps
     let a2 := mmul a a
     let v1 := mdiv (madd (msmul (mmul a r.u) r.lam) (mmul a2 r.u))
       (2 * r.lam * r.lam)
     let v2 := mdiv (madd (msmul (mmul a r.u) (-r.lam)) (mmul a2 r.u))
       (2 * r.lam * r.lam)
     r.ans = (if eps < E.normF v1 then [(q2c r.lam, toComplexM v1)] else [])
         ++ (if eps < E.normF v2 then [(q2c (-r.lam), toComplexM v2)] else [])) ∧
    ((method2Core E a y0 maxIters eps).ans = [] →
      (method2Core E a y0 maxIters eps).itersOut = -1) := by
  obtain ⟨s, hcore⟩ := method2Core_spec E a y0 maxIters eps
  refine ⟨pm2_ok E a y0 maxIters eps hsq, ?_, ?_⟩
  · rw [hcore]
    dsimp only
    simp only [mmul_msmul]
  · intro h
    rw [hcore] at h ⊢
    dsimp only at h ⊢
    rw [if_pos (Or.inr (by rw [h]; rfl))]

/-- C3 witness: the recovery shape at the concrete 1-by-1 matrix [[2]]. -/
theorem c3_method2_recovery_witness :
    powerMethodEigenvalues2 probeCollab mat2 (e0colQ 1) 3 (1 / 10) =
      .ok (method2Core probeCollab mat2 (e0colQ 1) 3 (1 / 10)) ∧
    (let r := method2Core probeCollab mat2 (e0colQ 1) 3 (1 / 10)
     let a2 := mmul mat2 mat2
     let v1 := mdiv (madd (msmul (mmul mat2 r.u) r.lam) (mmul a2 r.u))
       (2 * r.lam * r.lam)
     let v2 := mdiv (madd (msmul (mmul mat2 r.u) (-r.lam)) (mmul a2 r.u))
       (2 * r.lam * r.lam)
     r.ans = (if (1 / 10 : ℚ) < probeCollab.normF v1 then
           [(q2c r.lam, toComplexM v1)] else [])
         ++ (if (1 / 10 : ℚ) < probeCollab.normF v2 then
           [(q2c (-r.lam), toComplexM v2)] else [])) ∧
    ((method2Core probeCollab mat2 (e0colQ 1) 3 (1 / 10)).ans = [] →
      (method2Core probeCollab mat2 (e0colQ 1) 3 (1 / 10)).itersOut = -1) :=
  c3_method2_recovery probeCollab mat2 (e0colQ 1) 3 (1 / 10) rfl

/-- C5 (amended): every non-square matrix makes each of the three methods
throw invalid_argument right away (the square check precedes all other
work), with a message containing the actual size; the dispatcher does so on
every forced or default path PROVIDED the matrix has at least one row.  For
a zero-row non-square matrix the dispatcher's own seed write y(0) = 1
throws out_of_range before any method is reached (see the counterexample).
The model passes the input matrix immutably, matching the const reference
of the source. -/
theorem c5_non_square (E : Collab) (eps : ℚ) (epsC : Cx) (a y0 : MatF ℚ)
    (maxIters ci cs : Int) (hns : ¬ a.rows = a.cols) :
    powerMethodEigenvalues1 E eps a y0 maxIters =
      .error (.invalidArgument (notSquareMsg a)) ∧
    powerMethodEigenvalues2 E a y0 maxIters eps =
      .error (.invalidArgument (notSquareMsg a)) ∧
    powerMethodEigenvalues3 E eps epsC a maxIters =
      .error (.invalidArgument (notSquareMsg a)) ∧
    (∃ p q, notSquareMsg a = p ++ pairToString a.rows a.cols ++ q) ∧
    (1 ≤ a.rows → ∀ f : Int,
      powerMethodEigenvalues E eps epsC a maxIters ci cs f =
        .error (.invalidArgument (notSquareMsg a))) := by
  refine ⟨?_, ?_, ?_, ⟨"Matrix of size ", " is not square.", rfl⟩, ?_⟩
  · rw [powerMethodEigenvalues1, if_pos hns]
  · rw [powerMethodEigenvalues2, if_pos hns]
  · rw [powerMethodEigenvalues3, if_pos hns]
  · intro hr f
    have hseed : setSingleE (constMat a.rows 1 (0 : ℚ)) 0 1 = .ok (e0colQ a.rows) :=
      setSingleE_col (constMat a.rows 1 (0 : ℚ)) 1 rfl hr
    have hdef : dispatchDefault E eps epsC a maxIters =
        .error (.invalidArgument (notSquareMsg a)) := by
      rw [dispatchDefault.eq_def, hseed]
      dsimp only
      rw [powerMethodEigenvalues2, if_pos hns]
    rw [powerMethodEigenvalues.eq_def]
    by_cases hf : f = -1
    · rw [if_neg (not_not_intro hf)]
      exact hdef
    · rw [if_pos hf, hseed]
      dsimp only
      by_cases h0 : f = 0
      · rw [if_pos h0, powerMethodEigenvalues1, if_pos hns]
      · rw [if_neg h0]
        by_cases h1 : f = 1
        · rw [if_pos h1, powerMethodEigenvalues2, if_pos hns]
        · rw [if_neg h1]
          by_cases h2 : f = 2
          · rw [if_pos h2, powerMethodEigenvalues3, if_pos hns]
          · rw [if_neg h2]
            exact hdef

/-- C5 witness: the amended statement at the concrete non-square 1-by-2
zero matrix. -/
theorem c5_non_square_witness :
    ¬ (constMat 1 2 (0 : ℚ)).rows = (constMat 1 2 (0 : ℚ)).cols ∧
    (powerMethodEigenvalues1 trivCollab (1 / 10) (constMat 1 2 (0 : ℚ))
        (e0colQ 1) 7 =
      .error (.invalidArgument (notSquareMsg (constMat 1 2 (0 : ℚ)))) ∧
    powerMethodEigenvalues2 trivCollab (constMat 1 2 (0 : ℚ)) (e0colQ 1) 7
        (1 / 10) =
      .error (.invalidArgument (notSquareMsg (constMat 1 2 (0 : ℚ)))) ∧
    powerMethodEigenvalues3 trivCollab (1 / 10) 0 (constMat 1 2 (0 : ℚ)) 7 =
      .error (.invalidArgument (notSquareMsg (constMat 1 2 (0 : ℚ)))) ∧
    (∃ p q, notSquareMsg (constMat 1 2 (0 : ℚ)) =
      p ++ pairToString (constMat 1 2 (0 : ℚ)).rows (constMat 1 2 (0 : ℚ)).cols ++ q) ∧
    (1 ≤ (constMat 1 2 (0 : ℚ)).rows → ∀ f : Int,
      powerMethodEigenvalues trivCollab (1 / 10) 0 (constMat 1 2 (0 : ℚ)) 7 3 2 f =
        .error (.invalidArgument (notSquareMsg (constMat 1 2 (0 : ℚ)))))) :=
  ⟨by decide,
   c5_non_square trivCollab (1 / 10) 0 (constMat 1 2 (0 : ℚ)) (e0colQ 1) 7 3 2
     (by decide)⟩

/-- C5 counterexample: on the concrete non-square 0-by-1 matrix the
dispatcher (here with forced method 0) raises out_of_range (errKind 2) from
the y(0) = 1 seed write, not the invalid_argument (errKind 0) the claim
asserts for every non-square input on every dispatcher path. -/
theorem c5_counterexample :
    errKind (powerMethodEigenvalues trivCollab (1 / 1000) 0
      (constMat 0 1 (0 : ℚ)) 100 10 5 0) = 2 := rfl

/-- On a square matrix with at least one row, the no-override dispatcher is
the probe/refine/fallback composition: Method 2 at tolerance 0.1 on the unit
seed, then Method 2 at the configured epsilon on the probe's final y, then
Method 3 on failure. -/
theorem dispatch_default_unfold (E : Collab) (epsQ : ℚ) (epsC : Cx)
    (a : MatF ℚ) (mi ci cs : Int) (hsq : a.rows = a.cols) (hn : 1 ≤ a.rows) :
    powerMethodEigenvalues E epsQ epsC a mi ci cs (-1) =
      (let probe := method2Core E a (e0colQ a.rows) mi (1 / 10)
       if 0 ≤ probe.itersOut then
         let refined := method2Core E a probe.yOut mi epsQ
         if 0 ≤ refined.itersOut ∧ ¬ refined.ans.isEmpty then
           .ok (refined.ans, probe.itersOut + refined.itersOut)
         else .ok ((method3Core E epsQ epsC a (e0colC a.rows) mi).ans,
             (method3Core E epsQ epsC a (e0colC a.rows) mi).itersOut)
       else .ok ((method3Core E epsQ epsC a (e0colC a.rows) mi).ans,
           (method3Core E epsQ epsC a (e0colC a.rows) mi).itersOut)) := by
  have hseed : setSingleE (constMat a.rows 1 (0 : ℚ)) 0 1 = .ok (e0colQ a.rows) :=
    setSingleE_col (constMat a.rows 1 (0 : ℚ)) 1 rfl hn
  rw [powerMethodEigenvalues.eq_def, if_neg (not_not_intro rfl),
    dispatchDefault.eq_def, hseed]
  dsimp only
  rw [pm2_ok E a (e0colQ a.rows) mi (1 / 10) hsq]
  dsimp only
  by_cases hp : 0 ≤ (method2Core E a (e0colQ a.rows) mi (1 / 10)).itersOut
  · rw [if_pos hp, if_pos hp,
      pm2_ok E a (method2Core E a (e0colQ a.rows) mi (1 / 10)).yOut mi epsQ hsq]
    dsimp only
    by_cases hrf : 0 ≤ (method2Core E a
          (method2Core E a (e0colQ a.rows) mi (1 / 10)).yOut mi epsQ).itersOut ∧
        ¬ (method2Core E a
          (method2Core E a (e0colQ a.rows) mi (1 / 10)).yOut mi epsQ).ans.isEmpty
    · rw [if_pos hrf, if_pos hrf]
    · rw [if_neg hrf, if_neg hrf, pm3_ok E epsQ epsC a mi hsq hn]
      rfl
  · rw [if_neg hp, if_neg hp, pm3_ok E epsQ epsC a mi hsq hn]
    rfl

/-- C1 (amended: for every square matrix WITH AT LEAST ONE ROW): with no
forced-method override the dispatcher first runs the Method 2 probe at the
loose tolerance 0.1; if the probe signalled success it reruns Method 2 at
full precision, and if that rerun signals success with a nonempty eigenpair
list those results are returned with the out-parameter set to the sum of the
two iteration counts; in every other case Method 3's results are returned
unconditionally.  (At the 0-row square matrix the dispatcher instead throws
out_of_range from its seed write; see the counterexample.) -/
theorem c1_dispatcher_flow (E : Collab) (epsQ : ℚ) (epsC : Cx) (a : MatF ℚ)
    (maxIters ci cs : Int) (hsq : a.rows = a.cols) (hn : 1 ≤ a.rows) :
    (let probe := method2Core E a (e0colQ a.rows) maxIters (1 / 10)
     let refined := method2Core E a probe.yOut maxIters epsQ
     let m3 := method3Core E epsQ epsC a (e0colC a.rows) maxIters
     (0 ≤ probe.itersOut → 0 ≤ refined.itersOut → ¬ refined.ans.isEmpty →
       powerMethodEigenvalues E epsQ epsC a maxIters ci cs (-1) =
         .ok (refined.ans, probe.itersOut + refined.itersOut)) ∧
     (¬ 0 ≤ probe.itersOut →
       powerMethodEigenvalues E epsQ epsC a maxIters ci cs (-1) =
         .ok (m3.ans, m3.itersOut)) ∧
     (0 ≤ probe.itersOut →
       ¬ (0 ≤ refined.itersOut ∧ ¬ refined.ans.isEmpty) →
       powerMethodEigenvalues E epsQ epsC a maxIters ci cs (-1) =
         .ok (m3.ans, m3.itersOut))) := by
  dsimp only
  refine ⟨?_, ?_, ?_⟩
  · intro h1 h2 h3
    rw [dispatch_default_unfold E epsQ epsC a maxIters ci cs hsq hn]
    dsimp only
    rw [if_pos h1, if_pos ⟨h2, h3⟩]
  · intro h1
    rw [dispatch_default_unfold E epsQ epsC a maxIters ci cs hsq hn]
    dsimp only
    rw [if_neg h1]
  · intro h1 h2
    rw [dispatch_default_unfold E epsQ epsC a maxIters ci cs hsq hn]
    dsimp only
    rw [if_pos h1, if_neg h2]

/-- C1 counterexample: at the concrete 0-by-0 (square) matrix the
no-override dispatcher raises out_of_range (errKind 2) from the y(0) = 1
seed write instead of running the probe and returning results (errKind 3),
so the claimed flow does not hold for EVERY square matrix. -/
theorem c1_counterexample :
    errKind (powerMethodEigenvalues trivCollab (1 / 1000) 0
      (constMat 0 0 (0 : ℚ)) 100 10 5 (-1)) = 2 := rfl

/-- C1 witness: the amended flow at the concrete 1-by-1 matrix [[2]]. -/
theorem c1_dispatcher_flow_witness :
    1 ≤ mat2.rows ∧
    (let probe := method2Core probeCollab mat2 (e0colQ mat2.rows) 3 (1 / 10)
     let refined := method2Core probeCollab mat2 probe.yOut 3 (1 / 1000)
     let m3 := method3Core probeCollab (1 / 1000) 0 mat2 (e0colC mat2.rows) 3
     (0 ≤ probe.itersOut → 0 ≤ refined.itersOut → ¬ refined.ans.isEmpty →
       powerMethodEigenvalues probeCollab (1 / 1000) 0 mat2 3 10 5 (-1) =
         .ok (refined.ans, probe.itersOut + refined.itersOut)) ∧
     (¬ 0 ≤ probe.itersOut →
       powerMethodEigenvalues probeCollab (1 / 1000) 0 mat2 3 10 5 (-1) =
         .ok (m3.ans, m3.itersOut)) ∧
     (0 ≤ probe.itersOut →
       ¬ (0 ≤ refined.itersOut ∧ ¬ refined.ans.isEmpty) →
       powerMethodEigenvalues probeCollab (1 / 1000) 0 mat2 3 10 5 (-1) =
         .ok (m3.ans, m3.itersOut))) :=
  ⟨le_refl 1,
   c1_dispatcher_flow probeCollab (1 / 1000) 0 mat2 3 10 5 rfl (le_refl 1)⟩

/-- C10: every Method 2 iteration overwrites the caller's y reference with
A2*u; consequently, on the no-override path the dispatcher's full-precision
Method 2 rerun is seeded with the y the loose probe left behind (second
conjunct), which concretely differs from the unit seed e0 (third conjunct:
for [[2]] the probe leaves y = [[4]]). -/
theorem c10_probe_seed_mutation (E : Collab) (epsQ : ℚ) (epsC : Cx)
    (a a2 u y : MatF ℚ) (maxIters ci cs : Int) (hsq : a.rows = a.cols)
    (hn : 1 ≤ a.rows) :
    ((powerIterationMethod2Iteration E a a2 u y).2.2 = mmul a2 u) ∧
    (let probe := method2Core E a (e0colQ a.rows) maxIters (1 / 10)
     ¬ 0 ≤ probe.itersOut ∨
       powerMethodEigenvalues E epsQ epsC a maxIters ci cs (-1) =
         (let refined := method2Core E a probe.yOut maxIters epsQ
          if 0 ≤ refined.itersOut ∧ ¬ refined.ans.isEmpty then
            .ok (refined.ans, probe.itersOut + refined.itersOut)
          else .ok ((method3Core E epsQ epsC a (e0colC a.rows) maxIters).ans,
              (method3Core E epsQ epsC a (e0colC a.rows) maxIters).itersOut))) ∧
    ((method2Core probeCollab mat2 (e0colQ 1) 0 (1 / 10)).yOut.entry 0 0 ≠
      (e0colQ 1).entry 0 0) := by
  refine ⟨rfl, ?_, ?_⟩
  · dsimp only
    by_cases hp : 0 ≤ (method2Core E a (e0colQ a.rows) maxIters (1 / 10)).itersOut
    · right
      rw [dispatch_default_unfold E epsQ epsC a maxIters ci cs hsq hn]
      dsimp only
      rw [if_pos hp]
    · exact Or.inl hp
  · rw [method2Core]
    dsimp only
    rw [method2Go]
    rw [if_pos (by norm_num [probeCollab, dotP, atSingleT, sumTo, mmul, mdiv,
      e0colQ, updateEntry, constMat, mat2, qabs, bigQ])]
    dsimp only
    rw [if_pos (by norm_num)]
    norm_num [powerIterationMethod2Iteration, mmul, mdiv, sumTo, atSingleT,
      dotP, e0colQ, updateEntry, constMat, mat2, probeCollab]

/-- C10 witness: the mutation and threading statement at the concrete
1-by-1 matrix [[2]]. -/
theorem c10_probe_seed_mutation_witness :
    mat2.rows = mat2.cols ∧
    (((powerIterationMethod2Iteration probeCollab mat2 (mmul mat2 mat2)
        (e0colQ 1) (e0colQ 1)).2.2 = mmul (mmul mat2 mat2) (e0colQ 1)) ∧
    (let probe := method2Core probeCollab mat2 (e0colQ mat2.rows) 3 (1 / 10)
     ¬ 0 ≤ probe.itersOut ∨
       powerMethodEigenvalues probeCollab (1 / 1000) 0 mat2 3 10 5 (-1) =
         (let refined := method2Core probeCollab mat2 probe.yOut 3 (1 / 1000)
          if 0 ≤ refined.itersOut ∧ ¬ refined.ans.isEmpty then
            .ok (refined.ans, probe.itersOut + refined.itersOut)
          else .ok ((method3Core probeCollab (1 / 1000) 0 mat2 (e0colC mat2.rows) 3).ans,
              (method3Core probeCollab (1 / 1000) 0 mat2 (e0colC mat2.rows) 3).itersOut))) ∧
    ((method2Core probeCollab mat2 (e0colQ 1) 0 (1 / 10)).yOut.entry 0 0 ≠
      (e0colQ 1).entry 0 0)) :=
  ⟨rfl, c10_probe_seed_mutation probeCollab (1 / 1000) 0 mat2 (mmul mat2 mat2)
    (e0colQ 1) (e0colQ 1) 3 10 5 rfl (le_refl 1)⟩

/-- Accumulating negated complex terms negates the accumulation. -/
theorem cx_sum_neg (n : Nat) (f : Nat → Cx) :
    sumTo n (fun k => -(f k)) = -(sumTo n f) := by
  induction n with
  | zero =>
    apply cxExt <;> simp [sumTo, cx_neg_def, cx_zero_def]
  | succ m ih =>
    show sumTo m (fun k => -(f k)) + -(f m) = _
    rw [ih]
    apply cxExt <;> simp [sumTo, cx_neg_def, cx_add_def] <;> ring

/-- (-1 * M) * v = -(M * v) entrywise: scaling the matrix by the complex
-1 before the product negates every product entry. -/
theorem mmul_negone (m v : MatF Cx) (i j : Nat) :
    (mmul (msmul m (q2c (-1))) v).entry i j = -((mmul m v).entry i j) := by
  show sumTo m.cols (fun k => (m.entry i k * q2c (-1)) * v.entry k j) =
    -(sumTo m.cols (fun k => m.entry i k * v.entry k j))
  rw [← cx_sum_neg]
  congr 1
  funext k
  apply cxExt <;> simp [cx_mul_def, cx_neg_def, q2c] <;> ring

/-- Flipping the signs of both lower coefficients of the monic quadratic
turns subtraction into addition: x^2 - (-b)x - (-c) = x^2 + bx + c. -/
theorem cx_flip_poly (x : Cx) (b c : ℚ) :
    x * x - q2c (-b) * x - q2c (-c) = x * x + q2c b * x + q2c c := by
  apply cxExt <;> simp [cx_mul_def, cx_sub_def, cx_add_def, q2c]

/-- C2: each Method 3 iteration advances u, builds the overdetermined real
system l * x = rv with one row per matrix row and two unknowns (x0, x1),
whose i-th row is equivalent to Re((A2 u)(i)) = (-x1) * Re((A u)(i)) +
(-x0) * Re(u(i)) — the real-part recurrence A2 u = c1' (A u) + c0' u with
c1' = -x1, c0' = -x0 — solves it by the least-squares collaborator, and
returns exactly the quadratic solver's two complex roots on coefficients
(1, c(1), c(0)); under the solver's contract (roots of x^2 + c1 x + c0)
those roots solve the characteristic quadratic x^2 - c1' x - c0' = 0 of the
fitted recurrence. -/
theorem c2_method3_system (E : Collab) (ca ca2 y u : MatF Cx) :
    (let u1 := mdiv (mmul ca u) (E.normC (mmul ca u))
     let au := mmul ca u1
     let l : MatF ℚ := ⟨u1.rows, 2, fun i j =>
       if j = 0 then (u1.entry i 0).re else (au.entry i 0).re⟩
     let rv : MatF ℚ := ⟨u1.rows, 1, fun i _ =>
       ((mmul (msmul ca2 (q2c (-1))) u1).entry i 0).re⟩
     let c := E.minSq l rv
     let c1 := atSingleT c 1
     let c0 := atSingleT c 0
     let rts := E.solveQuad 1 c1 c0
     (l.rows = ca.rows ∧ l.cols = 2 ∧ rv.rows = ca.rows ∧ rv.cols = 1) ∧
     (∀ (i : Nat) (g0 g1 : ℚ),
       (g0 * l.entry i 0 + g1 * l.entry i 1 = rv.entry i 0 ↔
        ((mmul ca2 u1).entry i 0).re =
          -g1 * ((mmul ca u1).entry i 0).re + -g0 * (u1.entry i 0).re)) ∧
     ((powerMethodEigenvaluesComplexIteration E ca ca2 y u).1 = rts) ∧
     ((rts.1 * rts.1 + q2c c1 * rts.1 + q2c c0 = 0 ∧
       rts.2 * rts.2 + q2c c1 * rts.2 + q2c c0 = 0) →
      (rts.1 * rts.1 - q2c (-c1) * rts.1 - q2c (-c0) = 0 ∧
       rts.2 * rts.2 - q2c (-c1) * rts.2 - q2c (-c0) = 0))) := by
  dsimp only
  refine ⟨⟨rfl, rfl, rfl, rfl⟩, ?_, rfl, ?_⟩
  · intro i g0 g1
    rw [mmul_negone]
    simp only [cx_neg_def]
    norm_num
    constructor
    · intro h
      linarith
    · intro h
      linarith
  · intro h
    exact ⟨by rw [cx_flip_poly]; exact h.1, by rw [cx_flip_poly]; exact h.2⟩

/-- C2 witness: the system/roots statement instantiated at the concrete
complex-promoted 1-by-1 matrix [[2]] and its square, with the trivial
collaborator instantiation. -/
theorem c2_method3_system_witness :
    (let u1 := mdiv (mmul (toComplexM mat2) (toComplexM (e0colQ 1)))
       (trivCollab.normC (mmul (toComplexM mat2) (toComplexM (e0colQ 1))))
     let au := mmul (toComplexM mat2) u1
     let l : MatF ℚ := ⟨u1.rows, 2, fun i j =>
       if j = 0 then (u1.entry i 0).re else (au.entry i 0).re⟩
     let rv : MatF ℚ := ⟨u1.rows, 1, fun i _ =>
       ((mmul (msmul (toComplexM (mmul mat2 mat2)) (q2c (-1))) u1).entry i 0).re⟩
     let c := trivCollab.minSq l rv
     let c1 := atSingleT c 1
     let c0 := atSingleT c 0
     let rts := trivCollab.solveQuad 1 c1 c0
     (l.rows = (toComplexM mat2).rows ∧ l.cols = 2 ∧
       rv.rows = (toComplexM mat2).rows ∧ rv.cols = 1) ∧
     (∀ (i : Nat) (g0 g1 : ℚ),
       (g0 * l.entry i 0 + g1 * l.entry i 1 = rv.entry i 0 ↔
        ((mmul (toComplexM (mmul mat2 mat2)) u1).entry i 0).re =
          -g1 * ((mmul (toComplexM mat2) u1).entry i 0).re +
            -g0 * (u1.entry i 0).re)) ∧
     ((powerMethodEigenvaluesComplexIteration trivCollab (toComplexM mat2)
        (toComplexM (mmul mat2 mat2)) (toComplexM (e0colQ 1))
        (toComplexM (e0colQ 1))).1 = rts) ∧
     ((rts.1 * rts.1 + q2c c1 * rts.1 + q2c c0 = 0 ∧
       rts.2 * rts.2 + q2c c1 * rts.2 + q2c c0 = 0) →
      (rts.1 * rts.1 - q2c (-c1) * rts.1 - q2c (-c0) = 0 ∧
       rts.2 * rts.2 - q2c (-c1) * rts.2 - q2c (-c0) = 0))) :=
  c2_method3_system trivCollab (toComplexM mat2) (toComplexM (mmul mat2 mat2))
    (toComplexM (e0colQ 1)) (toComplexM (e0colQ 1))
